import Mathlib

/-!
Shallow embedding of `scripts/optimize-logo.py`.

The script reads a PNG logo, re-encodes it with lossless maximum
compression (Pillow `img.save(..., 'PNG', optimize=True, compress_level=9)`),
and produces four fixed-size variants via `img.resize(..., LANCZOS)`.

Modelling choices:
* The filesystem is an association list from path strings to byte lists;
  a write shadows earlier entries for the same path.
* Images carry a color mode (`RGB` or `RGBA`), dimensions, and a row-major
  pixel list.  PNG encoding/decoding is modelled by an injective
  serialization (PNG is lossless, so save-then-open is the identity on
  the decoded raster); byte values are abstracted as naturals.
* Pillow calls with observable effects are recorded in an event trace:
  `Image.open`, `os.path.getsize`, `img.save`, and the `print` calls that
  report the quality hint and the per-variant sizes.
* Python exceptions (missing file, undecodable image, `ZeroDivisionError`)
  are the `exn` constructor of `PyRes`, carrying the filesystem and trace
  at the point the exception is raised.
-/

set_option autoImplicit false

namespace OptimizeLogo

/-! ## Bytes and the filesystem -/

abbrev Bytes := List Nat

abbrev FS := List (String × Bytes)

/-- Writing a file: the new entry shadows any previous one at that path. -/
def setFile (fs : FS) (p : String) (b : Bytes) : FS := (p, b) :: fs

/-- Reading a file: first (most recent) entry for the path wins. -/
def getFile : FS → String → Option Bytes
  | [], _ => none
  | (q, b) :: rest, p => if p = q then some b else getFile rest p

/-- `os.path.join(dir, file)` for the relative file names used here. -/
def pathJoin (dir file : String) : String := dir ++ "/" ++ file

/-! ## Raster images -/

/-- Pillow color modes occurring in this script: `'RGB'` (no alpha) and
`'RGBA'` (with alpha).  The script only distinguishes `'RGBA'` from
everything else. -/
inductive Mode where
  | RGB
  | RGBA
deriving DecidableEq, Repr

/-- A pixel stores three channels in `RGB` mode and four in `RGBA` mode. -/
inductive Pixel where
  | rgb (r g b : Nat)
  | rgba (r g b a : Nat)
deriving DecidableEq, Repr

def Pixel.matchesMode : Pixel → Mode → Bool
  | .rgb _ _ _, .RGB => true
  | .rgba _ _ _ _, .RGBA => true
  | _, _ => false

/-- Whether a color mode carries an alpha channel. -/
def Mode.hasAlpha : Mode → Bool
  | .RGB => false
  | .RGBA => true

/-- `img.convert('RGBA')`: existing channel values are preserved and an
added alpha channel is fully opaque (255). -/
def Pixel.toRGBA : Pixel → Pixel
  | .rgb r g b => .rgba r g b 255
  | .rgba r g b a => .rgba r g b a

/-- An in-memory decoded image: mode, pixel dimensions, row-major pixels. -/
structure Img where
  mode : Mode
  width : Nat
  height : Nat
  pixels : List Pixel
deriving DecidableEq, Repr

/-- Well-formedness of a decoded image: PNG dimensions are nonzero, the
pixel buffer has exactly `width * height` entries, and every pixel has the
channel layout of the image's mode. -/
def Img.valid (img : Img) : Prop :=
  0 < img.width ∧ 0 < img.height ∧
  img.pixels.length = img.width * img.height ∧
  ∀ p ∈ img.pixels, p.matchesMode img.mode = true

def convertRGBA (img : Img) : Img :=
  { mode := .RGBA, width := img.width, height := img.height,
    pixels := img.pixels.map Pixel.toRGBA }

/-! ## The PNG codec, modelled as an injective lossless serialization -/

def pixelBytes : Pixel → Bytes
  | .rgb r g b => [r, g, b]
  | .rgba r g b a => [r, g, b, a]

def modeTag : Mode → Nat
  | .RGB => 0
  | .RGBA => 1

def encodePng (img : Img) : Bytes :=
  modeTag img.mode :: img.width :: img.height :: img.pixels.flatMap pixelBytes

/-- `img.save(path, 'PNG', optimize=..., compress_level=...)` produces a
lossless encoding of the raster: the flags control compression effort
only, never the decoded content, so the abstract byte stream ignores
them. -/
def savePng (img : Img) (optimizeFlag : Bool) (compressLevel : Nat) : Bytes :=
  encodePng img

def groupRGB : Bytes → List Pixel
  | r :: g :: b :: rest => .rgb r g b :: groupRGB rest
  | _ => []

def groupRGBA : Bytes → List Pixel
  | r :: g :: b :: a :: rest => .rgba r g b a :: groupRGBA rest
  | _ => []

/-- `Image.open`: decoding.  Rejects malformed streams (wrong mode tag,
zero dimension — PNG requires nonzero width and height — or a pixel
payload of the wrong length). -/
def decodePng : Bytes → Option Img
  | 0 :: w :: h :: rest =>
    if 0 < w ∧ 0 < h ∧ rest.length = 3 * (w * h) then
      some ⟨Mode.RGB, w, h, groupRGB rest⟩
    else none
  | 1 :: w :: h :: rest =>
    if 0 < w ∧ 0 < h ∧ rest.length = 4 * (w * h) then
      some ⟨Mode.RGBA, w, h, groupRGBA rest⟩
    else none
  | _ => none

/-! ## Resampling -/

def defaultPixel : Mode → Pixel
  | .RGB => .rgb 0 0 0
  | .RGBA => .rgba 0 0 0 0

def samplePixel (img : Img) (sx sy : Nat) : Pixel :=
  img.pixels.getD (sy * img.width + sx) (defaultPixel img.mode)

/-- `img.resize((w, h), Image.Resampling.LANCZOS)`.  Pillow returns a new
image of exactly the requested dimensions in the same mode; the
floating-point Lanczos kernel is modelled by coordinate-scaled point
sampling, which is adequate here because no claim concerns the numeric
values of resampled pixels, only dimensions, mode and provenance. -/
def resizeImg (img : Img) (w h : Nat) : Img :=
  { mode := img.mode, width := w, height := h,
    pixels := (List.range (w * h)).map fun i =>
      samplePixel img (i % w * img.width / w) (i / w * img.height / h) }

/-! ## Events, Python results and Python values -/

/-- Externally observable actions of the script, in order: decoding reads
(`Image.open`), size queries (`os.path.getsize`), file writes
(`img.save`), the progress print that reports the quality hint, and the
per-variant print that reports dimensions and resulting byte size. -/
inductive Event where
  | openFile (path : String)
  | getsize (path : String)
  | save (path : String)
  | printQuality (q : Nat)
  | printVariant (w h size : Nat)
deriving DecidableEq, Repr

def Event.saveTarget : Event → Option String
  | .save p => some p
  | _ => none

def Event.openTarget : Event → Option String
  | .openFile p => some p
  | _ => none

def Event.variantReport : Event → Option (Nat × Nat × Nat)
  | .printVariant w h s => some (w, h, s)
  | _ => none

/-- The result of running one Python function: either a normal return
with the final filesystem, the event trace and the returned value, or an
uncaught exception with the filesystem and trace at the raise point. -/
inductive PyRes (α : Type) where
  | ok (fs : FS) (trace : List Event) (val : α)
  | exn (fs : FS) (trace : List Event)

def PyRes.fsOf {α : Type} : PyRes α → FS
  | .ok fs _ _ => fs
  | .exn fs _ => fs

def PyRes.traceOf {α : Type} : PyRes α → List Event
  | .ok _ tr _ => tr
  | .exn _ tr => tr

def PyRes.retOf {α : Type} : PyRes α → Option α
  | .ok _ _ v => some v
  | .exn _ _ => none

/-- Python return values of `create_smaller_sizes`: the function body has
no `return` statement, so it returns `None`; the spec instead promises a
list of (width, height, bytes) triples. -/
inductive PyVal where
  | none
  | list (l : List (Nat × Nat × Nat))
deriving DecidableEq, Repr

def PyVal.isList : PyVal → Bool
  | .list _ => true
  | .none => false

/-! ## The script's functions -/

/-- The mode normalization of the source:
`if img.mode != 'RGBA': img = img.convert('RGBA')`. -/
def ensureRGBA (img : Img) : Img :=
  if img.mode ≠ Mode.RGBA then convertRGBA img else img

/-- `optimize_png(input_path, output_path, quality)`:
opens the image, reads the input size, converts to RGBA when the mode is
not already RGBA, saves with `optimize=True, compress_level=9`, reads the
output size, computes the percentage reduction (a division by
`original_size`, which raises `ZeroDivisionError` when that is zero), and
returns the new size. -/
def optimize_png (fs : FS) (input_path output_path : String) (quality : Nat) :
    PyRes Nat :=
  match getFile fs input_path with
  | none => .exn fs [.openFile input_path]
  | some bytes =>
    match decodePng bytes with
    | none => .exn fs [.openFile input_path]
    | some img0 =>
      let original_size := bytes.length
      let img1 := ensureRGBA img0
      let outBytes := savePng img1 true 9
      let fs1 := setFile fs output_path outBytes
      let new_size := ((getFile fs1 output_path).getD []).length
      let tr := [Event.openFile input_path, Event.getsize input_path,
                 Event.printQuality quality, Event.save output_path,
                 Event.getsize output_path]
      if original_size = 0 then .exn fs1 tr else .ok fs1 tr new_size

/-- The four target sizes and file names, as listed in the source. -/
def sizes : List (Nat × Nat × String) :=
  [(512, 512, "logo-512.png"), (256, 256, "logo-256.png"),
   (128, 128, "logo-128.png"), (64, 64, "logo-64.png")]

/-- `create_smaller_sizes(input_path, output_dir)`: opens the image once,
then for each `(width, height, filename)` in `sizes` resizes with the
LANCZOS filter, saves to `os.path.join(output_dir, filename)` with
`optimize=True, compress_level=9`, reads the written size and prints it.
The function body has no `return` statement, so it returns `None`. -/
def create_smaller_sizes (fs : FS) (input_path output_dir : String) :
    PyRes PyVal :=
  match getFile fs input_path with
  | none => .exn fs [.openFile input_path]
  | some bytes =>
    match decodePng bytes with
    | none => .exn fs [.openFile input_path]
    | some img =>
      let st := sizes.foldl
        (fun st v =>
          let outPath := pathJoin output_dir v.2.2
          let resized := resizeImg img v.1 v.2.1
          let outBytes := savePng resized true 9
          let fs1 := setFile st.1 outPath outBytes
          let size := ((getFile fs1 outPath).getD []).length
          (fs1, st.2 ++ [Event.save outPath,
                         Event.getsize outPath,
                         Event.printVariant v.1 v.2.1 size]))
        (fs, [Event.openFile input_path])
      .ok st.1 st.2 PyVal.none

/-- The hardcoded paths of the `__main__` block. -/
def input_file : String := "public/logo.png"

def output_file : String := "public/logo-optimized.png"

def output_dir : String := "public"

/-- The `__main__` block: check `os.path.exists(input_file)` and exit
with status 1 when absent; otherwise run `optimize_png` then
`create_smaller_sizes`.  An uncaught Python exception terminates the
process with exit status 1.  The result is the exit status, the final
filesystem and the combined event trace. -/
def mainRun (fs : FS) : Nat × FS × List Event :=
  if (getFile fs input_file).isNone then
    (1, fs, [])
  else
    match optimize_png fs input_file output_file 85 with
    | .exn fs1 tr1 => (1, fs1, tr1)
    | .ok fs1 tr1 _ =>
      match create_smaller_sizes fs1 output_file output_dir with
      | .exn fs2 tr2 => (1, fs2, tr1 ++ tr2)
      | .ok fs2 tr2 _ => (0, fs2, tr1 ++ tr2)

/-! ## Lemmas about the filesystem, paths, codec and resampling -/

@[simp] theorem getFile_set_same (fs : FS) (p : String) (b : Bytes) :
    getFile (setFile fs p b) p = some b := by
  simp [setFile, getFile]

@[simp] theorem getFile_set_ne (fs : FS) (p q : String) (b : Bytes) (h : p ≠ q) :
    getFile (setFile fs q b) p = getFile fs p := by
  simp [setFile, getFile, h]

theorem pathJoin_inj (dir a b : String) (h : pathJoin dir a = pathJoin dir b) :
    a = b := by
  have hd : (dir ++ "/" ++ a).data = (dir ++ "/" ++ b).data := congrArg String.data h
  simp only [String.data_append] at hd
  have hab := List.append_cancel_left hd
  cases a; cases b
  exact congrArg String.mk hab

theorem pathJoin_ne (dir a b : String) (h : a ≠ b) :
    pathJoin dir a ≠ pathJoin dir b :=
  fun he => h (pathJoin_inj dir a b he)

theorem groupRGB_length : ∀ l : Bytes, (groupRGB l).length = l.length / 3
  | r :: g :: b :: rest => by
      simp only [groupRGB, List.length_cons, groupRGB_length rest]
      omega
  | [] => by simp [groupRGB]
  | [_] => by simp [groupRGB]
  | [_, _] => by simp [groupRGB]

theorem groupRGBA_length : ∀ l : Bytes, (groupRGBA l).length = l.length / 4
  | r :: g :: b :: a :: rest => by
      simp only [groupRGBA, List.length_cons, groupRGBA_length rest]
      omega
  | [] => by simp [groupRGBA]
  | [_] => by simp [groupRGBA]
  | [_, _] => by simp [groupRGBA]
  | [_, _, _] => by simp [groupRGBA]

theorem groupRGB_mem : ∀ (l : Bytes) (p : Pixel), p ∈ groupRGB l →
    p.matchesMode Mode.RGB = true
  | r :: g :: b :: rest, p, hp => by
      rw [groupRGB] at hp
      rcases List.mem_cons.mp hp with h | h
      · subst h; rfl
      · exact groupRGB_mem rest p h
  | [], p, hp => by simp [groupRGB] at hp
  | [_], p, hp => by simp [groupRGB] at hp
  | [_, _], p, hp => by simp [groupRGB] at hp

theorem groupRGBA_mem : ∀ (l : Bytes) (p : Pixel), p ∈ groupRGBA l →
    p.matchesMode Mode.RGBA = true
  | r :: g :: b :: a :: rest, p, hp => by
      rw [groupRGBA] at hp
      rcases List.mem_cons.mp hp with h | h
      · subst h; rfl
      · exact groupRGBA_mem rest p h
  | [], p, hp => by simp [groupRGBA] at hp
  | [_], p, hp => by simp [groupRGBA] at hp
  | [_, _], p, hp => by simp [groupRGBA] at hp
  | [_, _, _], p, hp => by simp [groupRGBA] at hp

theorem flatMap_cons_rgb (r g b : Nat) (rest : List Pixel) :
    (Pixel.rgb r g b :: rest).flatMap pixelBytes
      = r :: g :: b :: rest.flatMap pixelBytes := by
  simp [pixelBytes]

theorem flatMap_cons_rgba (r g b a : Nat) (rest : List Pixel) :
    (Pixel.rgba r g b a :: rest).flatMap pixelBytes
      = r :: g :: b :: a :: rest.flatMap pixelBytes := by
  simp [pixelBytes]

theorem groupRGB_flat : ∀ ps : List Pixel,
    (∀ p ∈ ps, p.matchesMode Mode.RGB = true) →
    groupRGB (ps.flatMap pixelBytes) = ps
  | [], _ => by simp [groupRGB]
  | p :: rest, h => by
      have hp := h p (by simp)
      match p, hp with
      | .rgb r g b, _ =>
          rw [flatMap_cons_rgb, groupRGB,
            groupRGB_flat rest fun q hq => h q (List.mem_cons_of_mem _ hq)]

theorem groupRGBA_flat : ∀ ps : List Pixel,
    (∀ p ∈ ps, p.matchesMode Mode.RGBA = true) →
    groupRGBA (ps.flatMap pixelBytes) = ps
  | [], _ => by simp [groupRGBA]
  | p :: rest, h => by
      have hp := h p (by simp)
      match p, hp with
      | .rgba r g b a, _ =>
          rw [flatMap_cons_rgba, groupRGBA,
            groupRGBA_flat rest fun q hq => h q (List.mem_cons_of_mem _ hq)]

theorem flat_length_rgb : ∀ ps : List Pixel,
    (∀ p ∈ ps, p.matchesMode Mode.RGB = true) →
    (ps.flatMap pixelBytes).length = 3 * ps.length
  | [], _ => by simp
  | p :: rest, h => by
      have hp := h p (by simp)
      match p, hp with
      | .rgb r g b, _ =>
          rw [flatMap_cons_rgb]
          simp only [List.length_cons,
            flat_length_rgb rest fun q hq => h q (List.mem_cons_of_mem _ hq)]
          omega

theorem flat_length_rgba : ∀ ps : List Pixel,
    (∀ p ∈ ps, p.matchesMode Mode.RGBA = true) →
    (ps.flatMap pixelBytes).length = 4 * ps.length
  | [], _ => by simp
  | p :: rest, h => by
      have hp := h p (by simp)
      match p, hp with
      | .rgba r g b a, _ =>
          rw [flatMap_cons_rgba]
          simp only [List.length_cons,
            flat_length_rgba rest fun q hq => h q (List.mem_cons_of_mem _ hq)]
          omega

/-- The codec is lossless: decoding an encoded valid image recovers it. -/
theorem decode_encode (img : Img) (h : img.valid) :
    decodePng (encodePng img) = some img := by
  obtain ⟨m, w, ht, ps⟩ := img
  obtain ⟨hw, hh, hlen, hmode⟩ := h
  simp only at hw hh hlen hmode
  cases m with
  | RGB =>
      have hl : (ps.flatMap pixelBytes).length = 3 * (w * ht) := by
        rw [flat_length_rgb ps hmode, hlen]
      simp only [encodePng, modeTag, decodePng]
      rw [if_pos ⟨hw, hh, hl⟩, groupRGB_flat ps hmode]
  | RGBA =>
      have hl : (ps.flatMap pixelBytes).length = 4 * (w * ht) := by
        rw [flat_length_rgba ps hmode, hlen]
      simp only [encodePng, modeTag, decodePng]
      rw [if_pos ⟨hw, hh, hl⟩, groupRGBA_flat ps hmode]

/-- Every successfully decoded image is well-formed. -/
theorem decode_valid (b : Bytes) (img : Img) (h : decodePng b = some img) :
    img.valid := by
  match b with
  | 0 :: w :: h' :: rest =>
      simp only [decodePng] at h
      split at h
      · rename_i hcond
        obtain ⟨hw, hh, hlen⟩ := hcond
        injection h with h
        subst h
        refine ⟨hw, hh, ?_, ?_⟩
        · simp only [groupRGB_length, hlen,
            Nat.mul_div_cancel_left _ (by norm_num : 0 < 3)]
        · exact fun p hp => groupRGB_mem rest p hp
      · exact absurd h (by simp)
  | 1 :: w :: h' :: rest =>
      simp only [decodePng] at h
      split at h
      · rename_i hcond
        obtain ⟨hw, hh, hlen⟩ := hcond
        injection h with h
        subst h
        refine ⟨hw, hh, ?_, ?_⟩
        · simp only [groupRGBA_length, hlen,
            Nat.mul_div_cancel_left _ (by norm_num : 0 < 4)]
        · exact fun p hp => groupRGBA_mem rest p hp
      · exact absurd h (by simp)
  | [] => simp [decodePng] at h
  | [x] => simp [decodePng] at h
  | [x, y] => simp [decodePng] at h
  | (n + 2) :: w :: h' :: rest => simp [decodePng] at h

/-- A decodable byte stream is nonempty (its header alone has 3 entries). -/
theorem decode_length_pos (b : Bytes) (img : Img) (h : decodePng b = some img) :
    0 < b.length := by
  match b with
  | [] => simp [decodePng] at h
  | x :: rest => simp

theorem defaultPixel_matches (m : Mode) : (defaultPixel m).matchesMode m = true := by
  cases m <;> rfl

theorem samplePixel_matches (img : Img) (sx sy : Nat)
    (h : ∀ p ∈ img.pixels, p.matchesMode img.mode = true) :
    (samplePixel img sx sy).matchesMode img.mode = true := by
  unfold samplePixel
  by_cases hlt : sy * img.width + sx < img.pixels.length
  · rw [List.getD_eq_getElem _ _ hlt]
    exact h _ (List.getElem_mem hlt)
  · rw [List.getD_eq_default _ _ (Nat.le_of_not_lt hlt)]
    exact defaultPixel_matches img.mode

theorem resizeImg_valid (img : Img) (w h : Nat) (hw : 0 < w) (hh : 0 < h)
    (hv : img.valid) : (resizeImg img w h).valid := by
  obtain ⟨_, _, _, hmode⟩ := hv
  refine ⟨hw, hh, by simp [resizeImg], ?_⟩
  intro p hp
  simp only [resizeImg, List.mem_map, List.mem_range] at hp
  obtain ⟨i, _, hpe⟩ := hp
  rw [← hpe]
  exact samplePixel_matches img _ _ hmode

/-! ## Behavior lemmas for the script's functions -/

theorem Pixel.toRGBA_matches (p : Pixel) :
    (Pixel.toRGBA p).matchesMode Mode.RGBA = true := by
  cases p <;> rfl

theorem convertRGBA_valid (img : Img) (h : img.valid) : (convertRGBA img).valid := by
  obtain ⟨hw, hh, hlen, _⟩ := h
  refine ⟨hw, hh, by simpa [convertRGBA] using hlen, ?_⟩
  intro p hp
  simp only [convertRGBA, List.mem_map] at hp
  obtain ⟨q, _, hq⟩ := hp
  rw [← hq]
  exact Pixel.toRGBA_matches q

theorem ensureRGBA_valid (img : Img) (h : img.valid) : (ensureRGBA img).valid := by
  unfold ensureRGBA
  split
  · exact convertRGBA_valid img h
  · exact h

theorem ensureRGBA_width (img : Img) : (ensureRGBA img).width = img.width := by
  unfold ensureRGBA
  split <;> rfl

theorem ensureRGBA_height (img : Img) : (ensureRGBA img).height = img.height := by
  unfold ensureRGBA
  split <;> rfl

theorem ensureRGBA_mode (img : Img) : (ensureRGBA img).mode = Mode.RGBA := by
  unfold ensureRGBA
  split
  · rfl
  · rename_i hmode
    exact Decidable.not_not.mp hmode

/-- Unfolding of `optimize_png` on a decodable input: it returns normally
with the encoded RGBA-normalized image written at `output_path` and that
file's byte length as return value. -/
theorem optimize_png_ok (fs : FS) (i o : String) (q : Nat) (bytes : Bytes)
    (img : Img) (h1 : getFile fs i = some bytes) (h2 : decodePng bytes = some img) :
    optimize_png fs i o q =
      PyRes.ok (setFile fs o (encodePng (ensureRGBA img)))
        [Event.openFile i, Event.getsize i, Event.printQuality q,
         Event.save o, Event.getsize o]
        (encodePng (ensureRGBA img)).length := by
  have hpos : bytes.length ≠ 0 :=
    Nat.pos_iff_ne_zero.mp (decode_length_pos bytes img h2)
  simp [optimize_png, h1, h2, savePng, hpos]

/-- Unfolding of `create_smaller_sizes` on a decodable input: the loop
writes the four encoded resized images and reports their byte lengths,
and the function returns `None`. -/
theorem create_smaller_sizes_ok (fs : FS) (i d : String) (bytes : Bytes)
    (img : Img) (h1 : getFile fs i = some bytes) (h2 : decodePng bytes = some img) :
    create_smaller_sizes fs i d =
      PyRes.ok
        (setFile (setFile (setFile (setFile fs
            (pathJoin d "logo-512.png") (encodePng (resizeImg img 512 512)))
            (pathJoin d "logo-256.png") (encodePng (resizeImg img 256 256)))
            (pathJoin d "logo-128.png") (encodePng (resizeImg img 128 128)))
            (pathJoin d "logo-64.png") (encodePng (resizeImg img 64 64)))
        [Event.openFile i,
         Event.save (pathJoin d "logo-512.png"),
         Event.getsize (pathJoin d "logo-512.png"),
         Event.printVariant 512 512 (encodePng (resizeImg img 512 512)).length,
         Event.save (pathJoin d "logo-256.png"),
         Event.getsize (pathJoin d "logo-256.png"),
         Event.printVariant 256 256 (encodePng (resizeImg img 256 256)).length,
         Event.save (pathJoin d "logo-128.png"),
         Event.getsize (pathJoin d "logo-128.png"),
         Event.printVariant 128 128 (encodePng (resizeImg img 128 128)).length,
         Event.save (pathJoin d "logo-64.png"),
         Event.getsize (pathJoin d "logo-64.png"),
         Event.printVariant 64 64 (encodePng (resizeImg img 64 64)).length]
        PyVal.none := by
  simp [create_smaller_sizes, h1, h2, sizes, savePng]

/-- The four variant file paths under any directory are pairwise
distinct. -/
theorem variantPaths_nodup (d : String) :
    ([pathJoin d "logo-512.png", pathJoin d "logo-256.png",
      pathJoin d "logo-128.png", pathJoin d "logo-64.png"]).Nodup := by
  have h : ∀ a b : String, a ≠ b → pathJoin d a ≠ pathJoin d b := pathJoin_ne d
  refine List.Pairwise.cons ?_ (List.Pairwise.cons ?_
    (List.Pairwise.cons ?_ (List.Pairwise.cons (by simp) List.Pairwise.nil)))
  · intro x hx
    simp only [List.mem_cons, List.not_mem_nil, or_false] at hx
    rcases hx with rfl | rfl | rfl <;> exact h _ _ (by decide)
  · intro x hx
    simp only [List.mem_cons, List.not_mem_nil, or_false] at hx
    rcases hx with rfl | rfl <;> exact h _ _ (by decide)
  · intro x hx
    simp only [List.mem_cons, List.not_mem_nil, or_false] at hx
    rcases hx with rfl
    exact h _ _ (by decide)

/-! ## Claims -/

/-- C4: for every decodable input, the file `optimize_png` writes at
`output_path` decodes to an image whose pixel width and height exactly
equal the input image's width and height. -/
theorem optimize_preserves_dimensions (fs : FS) (i o : String) (q : Nat)
    (bytes : Bytes) (img : Img)
    (h1 : getFile fs i = some bytes) (h2 : decodePng bytes = some img) :
    ∃ outBytes img2,
      getFile (optimize_png fs i o q).fsOf o = some outBytes ∧
      decodePng outBytes = some img2 ∧
      img2.width = img.width ∧ img2.height = img.height := by
  rw [optimize_png_ok fs i o q bytes img h1 h2]
  refine ⟨encodePng (ensureRGBA img), ensureRGBA img, ?_, ?_, ?_, ?_⟩
  · simp [PyRes.fsOf]
  · exact decode_encode _ (ensureRGBA_valid img (decode_valid bytes img h2))
  · exact ensureRGBA_width img
  · exact ensureRGBA_height img

theorem optimize_preserves_dimensions_witness :
    ∃ outBytes img2,
      getFile (optimize_png [(("in.png" : String), ([0, 2, 1, 1, 2, 3, 4, 5, 6] : Bytes))]
          "in.png" "out.png" 85).fsOf "out.png" = some outBytes ∧
      decodePng outBytes = some img2 ∧
      img2.width = 2 ∧ img2.height = 1 :=
  optimize_preserves_dimensions _ "in.png" "out.png" 85 _
    ⟨Mode.RGB, 2, 1, [Pixel.rgb 1 2 3, Pixel.rgb 4 5 6]⟩ rfl rfl

/-- C6: for every decodable input, `optimize_png` writes a file at
`output_path` and returns that output file's size in bytes. -/
theorem optimize_writes_output_and_returns_its_size (fs : FS) (i o : String)
    (q : Nat) (bytes : Bytes) (img : Img)
    (h1 : getFile fs i = some bytes) (h2 : decodePng bytes = some img) :
    ∃ fs2 tr n outBytes,
      optimize_png fs i o q = PyRes.ok fs2 tr n ∧
      getFile fs2 o = some outBytes ∧
      n = outBytes.length := by
  rw [optimize_png_ok fs i o q bytes img h1 h2]
  exact ⟨_, _, _, encodePng (ensureRGBA img), rfl, getFile_set_same fs o _, rfl⟩

theorem optimize_writes_output_and_returns_its_size_witness :
    ∃ fs2 tr n outBytes,
      optimize_png [(("in.png" : String), ([0, 1, 1, 10, 20, 30] : Bytes))]
          "in.png" "out.png" 85 = PyRes.ok fs2 tr n ∧
      getFile fs2 "out.png" = some outBytes ∧
      n = outBytes.length :=
  optimize_writes_output_and_returns_its_size _ "in.png" "out.png" 85 _
    ⟨Mode.RGB, 1, 1, [Pixel.rgb 10 20 30]⟩ rfl rfl

/-- C10: for every input that decodes as a valid raster image, the input
file's byte size is nonzero, so the percentage-reduction division in
`optimize_png` never hits its `ZeroDivisionError` branch and the function
returns normally. -/
theorem reduction_division_safe (fs : FS) (i o : String) (q : Nat)
    (bytes : Bytes) (img : Img)
    (h1 : getFile fs i = some bytes) (h2 : decodePng bytes = some img) :
    bytes.length ≠ 0 ∧
    ∃ fs2 tr n, optimize_png fs i o q = PyRes.ok fs2 tr n := by
  refine ⟨Nat.pos_iff_ne_zero.mp (decode_length_pos bytes img h2), ?_⟩
  rw [optimize_png_ok fs i o q bytes img h1 h2]
  exact ⟨_, _, _, rfl⟩

theorem reduction_division_safe_witness :
    ([0, 1, 1, 10, 20, 30] : Bytes).length ≠ 0 ∧
    ∃ fs2 tr n,
      optimize_png [(("in.png" : String), ([0, 1, 1, 10, 20, 30] : Bytes))]
        "in.png" "out.png" 85 = PyRes.ok fs2 tr n :=
  reduction_division_safe _ "in.png" "out.png" 85 _
    ⟨Mode.RGB, 1, 1, [Pixel.rgb 10 20 30]⟩ rfl rfl

/-- C8: the quality parameter of `optimize_png` does not influence the
written file, the final filesystem, or the return value: for any two
quality values in [1,100] and the same input the outputs coincide (only
the printed progress line mentions the quality). -/
theorem quality_noninterference (fs : FS) (i o : String) (q1 q2 : Nat)
    (hq1a : 1 ≤ q1) (hq1b : q1 ≤ 100) (hq2a : 1 ≤ q2) (hq2b : q2 ≤ 100) :
    getFile (optimize_png fs i o q1).fsOf o = getFile (optimize_png fs i o q2).fsOf o ∧
    (optimize_png fs i o q1).fsOf = (optimize_png fs i o q2).fsOf ∧
    (optimize_png fs i o q1).retOf = (optimize_png fs i o q2).retOf := by
  rcases hg : getFile fs i with _ | bytes
  · simp [optimize_png, hg]
  · rcases hd : decodePng bytes with _ | img
    · simp [optimize_png, hg, hd]
    · by_cases hz : bytes.length = 0
      · simp [optimize_png, hg, hd, hz, PyRes.fsOf, PyRes.retOf]
      · simp [optimize_png, hg, hd, hz, PyRes.fsOf, PyRes.retOf]

theorem quality_noninterference_witness :
    getFile (optimize_png [(("in.png" : String), ([0, 1, 1, 10, 20, 30] : Bytes))]
        "in.png" "out.png" 85).fsOf "out.png"
      = getFile (optimize_png [(("in.png" : String), ([0, 1, 1, 10, 20, 30] : Bytes))]
        "in.png" "out.png" 1).fsOf "out.png" ∧
    (optimize_png [(("in.png" : String), ([0, 1, 1, 10, 20, 30] : Bytes))]
        "in.png" "out.png" 85).fsOf
      = (optimize_png [(("in.png" : String), ([0, 1, 1, 10, 20, 30] : Bytes))]
        "in.png" "out.png" 1).fsOf ∧
    (optimize_png [(("in.png" : String), ([0, 1, 1, 10, 20, 30] : Bytes))]
        "in.png" "out.png" 85).retOf
      = (optimize_png [(("in.png" : String), ([0, 1, 1, 10, 20, 30] : Bytes))]
        "in.png" "out.png" 1).retOf :=
  quality_noninterference _ "in.png" "out.png" 85 1
    (by decide) (by decide) (by decide) (by decide)

/-- C3: for every decodable input whose color mode lacks an alpha
channel, the file written by `optimize_png` decodes to an image whose
mode has alpha, whose pixel count matches the input's, and whose pixels
keep the input's color channels with a fully opaque added alpha. -/
theorem rgba_conversion_preserves_channels (fs : FS) (i o : String) (q : Nat)
    (bytes : Bytes) (img : Img)
    (h1 : getFile fs i = some bytes) (h2 : decodePng bytes = some img)
    (hmode : img.mode.hasAlpha = false) :
    ∃ outBytes img2,
      getFile (optimize_png fs i o q).fsOf o = some outBytes ∧
      decodePng outBytes = some img2 ∧
      img2.mode.hasAlpha = true ∧
      img2.pixels.length = img.pixels.length ∧
      ∀ (n r g b : Nat), img.pixels[n]? = some (Pixel.rgb r g b) →
        img2.pixels[n]? = some (Pixel.rgba r g b 255) := by
  have hRGB : img.mode = Mode.RGB := by
    cases h : img.mode
    · rfl
    · rw [h] at hmode; simp [Mode.hasAlpha] at hmode
  have hconv : ensureRGBA img = convertRGBA img := by
    unfold ensureRGBA
    rw [if_pos (by simp [hRGB])]
  rw [optimize_png_ok fs i o q bytes img h1 h2]
  refine ⟨encodePng (ensureRGBA img), ensureRGBA img, ?_, ?_, ?_, ?_, ?_⟩
  · simp [PyRes.fsOf]
  · exact decode_encode _ (ensureRGBA_valid img (decode_valid bytes img h2))
  · rw [ensureRGBA_mode]; rfl
  · rw [hconv]; simp [convertRGBA]
  · intro n r g b hn
    rw [hconv]
    simp only [convertRGBA, List.getElem?_map, hn, Option.map_some]
    rfl

theorem rgba_conversion_preserves_channels_witness :
    ∃ outBytes img2,
      getFile (optimize_png [(("in.png" : String), ([0, 1, 1, 10, 20, 30] : Bytes))]
          "in.png" "out.png" 85).fsOf "out.png" = some outBytes ∧
      decodePng outBytes = some img2 ∧
      img2.mode.hasAlpha = true ∧
      img2.pixels.length = ([Pixel.rgb 10 20 30] : List Pixel).length ∧
      ∀ (n r g b : Nat), ([Pixel.rgb 10 20 30] : List Pixel)[n]? = some (Pixel.rgb r g b) →
        img2.pixels[n]? = some (Pixel.rgba r g b 255) :=
  rgba_conversion_preserves_channels _ "in.png" "out.png" 85 _
    ⟨Mode.RGB, 1, 1, [Pixel.rgb 10 20 30]⟩ rfl rfl rfl

/-- C9 counterexample: when `input_path` and `output_path` are the same
path, `optimize_png` overwrites — and hence mutates — the input file:
here a 1×1 RGB file is replaced by its RGBA re-encoding. -/
theorem optimize_aliased_paths_mutate_input :
    getFile (optimize_png [(("a.png" : String), ([0, 1, 1, 10, 20, 30] : Bytes))]
        "a.png" "a.png" 85).fsOf "a.png" = some [1, 1, 1, 10, 20, 30, 255] ∧
    getFile [(("a.png" : String), ([0, 1, 1, 10, 20, 30] : Bytes))] "a.png"
      = some [0, 1, 1, 10, 20, 30] ∧
    ([1, 1, 1, 10, 20, 30, 255] : Bytes) ≠ [0, 1, 1, 10, 20, 30] := by
  refine ⟨?_, ?_, by decide⟩ <;> rfl

/-- C9 (amended): provided `input_path ≠ output_path`, `optimize_png` on
a decodable input writes exactly one file — the one at `output_path` —
and leaves the input file and every other path unchanged. -/
theorem optimize_frame_condition (fs : FS) (i o : String) (q : Nat)
    (bytes : Bytes) (img : Img)
    (h1 : getFile fs i = some bytes) (h2 : decodePng bytes = some img)
    (hio : i ≠ o) :
    ∃ fs2 tr n,
      optimize_png fs i o q = PyRes.ok fs2 tr n ∧
      tr.filterMap Event.saveTarget = [o] ∧
      getFile fs2 i = getFile fs i ∧
      ∀ p, p ≠ o → getFile fs2 p = getFile fs p := by
  rw [optimize_png_ok fs i o q bytes img h1 h2]
  refine ⟨_, _, _, rfl, ?_, ?_, ?_⟩
  · simp [Event.saveTarget]
  · exact getFile_set_ne fs i o _ hio
  · intro p hp
    exact getFile_set_ne fs p o _ hp

theorem optimize_frame_condition_witness :
    ∃ fs2 tr n,
      optimize_png [(("in.png" : String), ([0, 1, 1, 10, 20, 30] : Bytes))]
          "in.png" "out.png" 85 = PyRes.ok fs2 tr n ∧
      tr.filterMap Event.saveTarget = ["out.png"] ∧
      getFile fs2 "in.png"
        = getFile [(("in.png" : String), ([0, 1, 1, 10, 20, 30] : Bytes))] "in.png" ∧
      ∀ p, p ≠ "out.png" →
        getFile fs2 p = getFile [(("in.png" : String), ([0, 1, 1, 10, 20, 30] : Bytes))] p :=
  optimize_frame_condition _ "in.png" "out.png" 85 _
    ⟨Mode.RGB, 1, 1, [Pixel.rgb 10 20 30]⟩ rfl rfl (by decide)

/-- C1: for every decodable input, `create_smaller_sizes` writes exactly
four files — `logo-512.png`, `logo-256.png`, `logo-128.png`,
`logo-64.png` inside `output_dir`, pairwise distinct — and each decodes
to exactly 512×512, 256×256, 128×128 and 64×64 pixels, regardless of the
input image's dimensions or aspect ratio. -/
theorem variants_write_four_fixed_size_files (fs : FS) (i d : String)
    (bytes : Bytes) (img : Img)
    (h1 : getFile fs i = some bytes) (h2 : decodePng bytes = some img) :
    ∃ fs2 tr,
      create_smaller_sizes fs i d = PyRes.ok fs2 tr PyVal.none ∧
      tr.filterMap Event.saveTarget =
        [pathJoin d "logo-512.png", pathJoin d "logo-256.png",
         pathJoin d "logo-128.png", pathJoin d "logo-64.png"] ∧
      (tr.filterMap Event.saveTarget).Nodup ∧
      ∀ v ∈ sizes, ∃ b img2,
        getFile fs2 (pathJoin d v.2.2) = some b ∧
        decodePng b = some img2 ∧
        img2.width = v.1 ∧ img2.height = v.2.1 := by
  have hvalid := decode_valid bytes img h2
  rw [create_smaller_sizes_ok fs i d bytes img h1 h2]
  refine ⟨_, _, rfl, by simp [Event.saveTarget], ?_, ?_⟩
  · simp only [List.filterMap_cons, List.filterMap_nil, Event.saveTarget]
    exact variantPaths_nodup d
  · intro v hv
    simp only [sizes, List.mem_cons, List.not_mem_nil, or_false] at hv
    rcases hv with rfl | rfl | rfl | rfl
    · refine ⟨encodePng (resizeImg img 512 512), resizeImg img 512 512, ?_, ?_, rfl, rfl⟩
      · rw [getFile_set_ne _ _ _ _ (pathJoin_ne d "logo-512.png" "logo-64.png" (by decide)),
            getFile_set_ne _ _ _ _ (pathJoin_ne d "logo-512.png" "logo-128.png" (by decide)),
            getFile_set_ne _ _ _ _ (pathJoin_ne d "logo-512.png" "logo-256.png" (by decide)),
            getFile_set_same]
      · exact decode_encode _ (resizeImg_valid img 512 512 (by norm_num) (by norm_num) hvalid)
    · refine ⟨encodePng (resizeImg img 256 256), resizeImg img 256 256, ?_, ?_, rfl, rfl⟩
      · rw [getFile_set_ne _ _ _ _ (pathJoin_ne d "logo-256.png" "logo-64.png" (by decide)),
            getFile_set_ne _ _ _ _ (pathJoin_ne d "logo-256.png" "logo-128.png" (by decide)),
            getFile_set_same]
      · exact decode_encode _ (resizeImg_valid img 256 256 (by norm_num) (by norm_num) hvalid)
    · refine ⟨encodePng (resizeImg img 128 128), resizeImg img 128 128, ?_, ?_, rfl, rfl⟩
      · rw [getFile_set_ne _ _ _ _ (pathJoin_ne d "logo-128.png" "logo-64.png" (by decide)),
            getFile_set_same]
      · exact decode_encode _ (resizeImg_valid img 128 128 (by norm_num) (by norm_num) hvalid)
    · refine ⟨encodePng (resizeImg img 64 64), resizeImg img 64 64, ?_, ?_, rfl, rfl⟩
      · rw [getFile_set_same]
      · exact decode_encode _ (resizeImg_valid img 64 64 (by norm_num) (by norm_num) hvalid)

theorem variants_write_four_fixed_size_files_witness :
    ∃ fs2 tr,
      create_smaller_sizes [(("in.png" : String), ([0, 2, 1, 1, 2, 3, 4, 5, 6] : Bytes))]
          "in.png" "pub" = PyRes.ok fs2 tr PyVal.none ∧
      tr.filterMap Event.saveTarget =
        [pathJoin "pub" "logo-512.png", pathJoin "pub" "logo-256.png",
         pathJoin "pub" "logo-128.png", pathJoin "pub" "logo-64.png"] ∧
      (tr.filterMap Event.saveTarget).Nodup ∧
      ∀ v ∈ sizes, ∃ b img2,
        getFile fs2 (pathJoin "pub" v.2.2) = some b ∧
        decodePng b = some img2 ∧
        img2.width = v.1 ∧ img2.height = v.2.1 :=
  variants_write_four_fixed_size_files _ "in.png" "pub" _
    ⟨Mode.RGB, 2, 1, [Pixel.rgb 1 2 3, Pixel.rgb 4 5 6]⟩ rfl rfl

/-- C2 counterexample: `create_smaller_sizes` does not return the list of
(dimensions, byte size) pairs: on a concrete decodable input its Python
return value is `None`, which is not a list. -/
theorem variants_return_value_not_list :
    (create_smaller_sizes [(("in.png" : String), ([1, 1, 1, 9, 9, 9, 9] : Bytes))]
        "in.png" "pub").retOf = some PyVal.none ∧
    PyVal.isList PyVal.none = false :=
  ⟨rfl, rfl⟩

/-- C2 (amended): for every decodable input, `create_smaller_sizes`
returns `None`; the list of (width×height, resulting byte size) pairs,
one per size variant written and matching the bytes actually written, is
only reported on standard output via `print`. -/
theorem variants_report_pairs_and_return_none (fs : FS) (i d : String)
    (bytes : Bytes) (img : Img)
    (h1 : getFile fs i = some bytes) (h2 : decodePng bytes = some img) :
    ∃ fs2 tr,
      create_smaller_sizes fs i d = PyRes.ok fs2 tr PyVal.none ∧
      tr.filterMap Event.variantReport =
        [(512, 512, (encodePng (resizeImg img 512 512)).length),
         (256, 256, (encodePng (resizeImg img 256 256)).length),
         (128, 128, (encodePng (resizeImg img 128 128)).length),
         (64, 64, (encodePng (resizeImg img 64 64)).length)] ∧
      ∀ v ∈ sizes,
        getFile fs2 (pathJoin d v.2.2) = some (encodePng (resizeImg img v.1 v.2.1)) := by
  rw [create_smaller_sizes_ok fs i d bytes img h1 h2]
  refine ⟨_, _, rfl, by simp [Event.variantReport], ?_⟩
  intro v hv
  simp only [sizes, List.mem_cons, List.not_mem_nil, or_false] at hv
  rcases hv with rfl | rfl | rfl | rfl
  · rw [getFile_set_ne _ _ _ _ (pathJoin_ne d "logo-512.png" "logo-64.png" (by decide)),
        getFile_set_ne _ _ _ _ (pathJoin_ne d "logo-512.png" "logo-128.png" (by decide)),
        getFile_set_ne _ _ _ _ (pathJoin_ne d "logo-512.png" "logo-256.png" (by decide)),
        getFile_set_same]
  · rw [getFile_set_ne _ _ _ _ (pathJoin_ne d "logo-256.png" "logo-64.png" (by decide)),
        getFile_set_ne _ _ _ _ (pathJoin_ne d "logo-256.png" "logo-128.png" (by decide)),
        getFile_set_same]
  · rw [getFile_set_ne _ _ _ _ (pathJoin_ne d "logo-128.png" "logo-64.png" (by decide)),
        getFile_set_same]
  · rw [getFile_set_same]

theorem variants_report_pairs_and_return_none_witness :
    ∃ fs2 tr,
      create_smaller_sizes [(("in.png" : String), ([1, 1, 1, 9, 8, 7, 6] : Bytes))]
          "in.png" "pub" = PyRes.ok fs2 tr PyVal.none ∧
      tr.filterMap Event.variantReport =
        [(512, 512, (encodePng (resizeImg ⟨Mode.RGBA, 1, 1, [Pixel.rgba 9 8 7 6]⟩ 512 512)).length),
         (256, 256, (encodePng (resizeImg ⟨Mode.RGBA, 1, 1, [Pixel.rgba 9 8 7 6]⟩ 256 256)).length),
         (128, 128, (encodePng (resizeImg ⟨Mode.RGBA, 1, 1, [Pixel.rgba 9 8 7 6]⟩ 128 128)).length),
         (64, 64, (encodePng (resizeImg ⟨Mode.RGBA, 1, 1, [Pixel.rgba 9 8 7 6]⟩ 64 64)).length)] ∧
      ∀ v ∈ sizes,
        getFile fs2 (pathJoin "pub" v.2.2)
          = some (encodePng (resizeImg ⟨Mode.RGBA, 1, 1, [Pixel.rgba 9 8 7 6]⟩ v.1 v.2.1)) :=
  variants_report_pairs_and_return_none _ "in.png" "pub" _
    ⟨Mode.RGBA, 1, 1, [Pixel.rgba 9 8 7 6]⟩ rfl rfl

/-- C5: if the fixed input path is missing the process exits with status
1, leaving the filesystem untouched and performing no action at all; if
the input exists and decodes (so every step succeeds), the process exits
with status 0 having written the optimized file and all four variants. -/
theorem main_exit_status (fs : FS) :
    (getFile fs input_file = none → mainRun fs = (1, fs, [])) ∧
    (∀ bytes img, getFile fs input_file = some bytes → decodePng bytes = some img →
      ∃ fs2 tr, mainRun fs = (0, fs2, tr) ∧
        (getFile fs2 output_file).isSome = true ∧
        ∀ v ∈ sizes, (getFile fs2 (pathJoin output_dir v.2.2)).isSome = true) := by
  constructor
  · intro h
    simp [mainRun, h]
  · intro bytes img h1 h2
    have hvalid := decode_valid bytes img h2
    have hopt := optimize_png_ok fs input_file output_file 85 bytes img h1 h2
    have h1' : getFile (setFile fs output_file (encodePng (ensureRGBA img))) output_file
        = some (encodePng (ensureRGBA img)) := getFile_set_same _ _ _
    have h2' : decodePng (encodePng (ensureRGBA img)) = some (ensureRGBA img) :=
      decode_encode _ (ensureRGBA_valid img hvalid)
    have hcss := create_smaller_sizes_ok _ output_file output_dir _ _ h1' h2'
    simp only [mainRun, h1, Option.isNone_some, Bool.false_eq_true, if_false, hopt, hcss]
    refine ⟨_, _, rfl, ?_, ?_⟩
    · rw [getFile_set_ne _ _ _ _ (by decide), getFile_set_ne _ _ _ _ (by decide),
          getFile_set_ne _ _ _ _ (by decide), getFile_set_ne _ _ _ _ (by decide),
          getFile_set_same]
      rfl
    · intro v hv
      simp only [sizes, List.mem_cons, List.not_mem_nil, or_false] at hv
      rcases hv with rfl | rfl | rfl | rfl
      · rw [getFile_set_ne _ _ _ _ (by decide), getFile_set_ne _ _ _ _ (by decide),
            getFile_set_ne _ _ _ _ (by decide), getFile_set_same]
        rfl
      · rw [getFile_set_ne _ _ _ _ (by decide), getFile_set_ne _ _ _ _ (by decide),
            getFile_set_same]
        rfl
      · rw [getFile_set_ne _ _ _ _ (by decide), getFile_set_same]
        rfl
      · rw [getFile_set_same]
        rfl

theorem main_exit_status_witness :
    mainRun [] = (1, [], []) ∧
    (∃ fs2 tr,
      mainRun [(("public/logo.png" : String), ([0, 1, 1, 10, 20, 30] : Bytes))]
        = (0, fs2, tr) ∧
      (getFile fs2 output_file).isSome = true ∧
      ∀ v ∈ sizes, (getFile fs2 (pathJoin output_dir v.2.2)).isSome = true) :=
  ⟨(main_exit_status []).1 rfl,
   (main_exit_status _).2 _ ⟨Mode.RGB, 1, 1, [Pixel.rgb 10 20 30]⟩ rfl rfl⟩

/-- C7: on a decodable input, the whole pipeline opens (decodes) exactly
two files — the original input in `optimize_png` and the optimized
output in `create_smaller_sizes` — and every variant file's content is
the re-encoding of a resample of the single image decoded from the
optimized output file, not of the original input. -/
theorem variants_resample_from_optimized_output (fs : FS) (bytes : Bytes)
    (img : Img)
    (h1 : getFile fs input_file = some bytes) (h2 : decodePng bytes = some img) :
    ∃ fs2 tr, mainRun fs = (0, fs2, tr) ∧
      tr.filterMap Event.openTarget = [input_file, output_file] ∧
      ∃ ob imgOpt,
        getFile fs2 output_file = some ob ∧
        decodePng ob = some imgOpt ∧
        ∀ v ∈ sizes,
          getFile fs2 (pathJoin output_dir v.2.2)
            = some (encodePng (resizeImg imgOpt v.1 v.2.1)) := by
  have hvalid := decode_valid bytes img h2
  have hopt := optimize_png_ok fs input_file output_file 85 bytes img h1 h2
  have h1' : getFile (setFile fs output_file (encodePng (ensureRGBA img))) output_file
      = some (encodePng (ensureRGBA img)) := getFile_set_same _ _ _
  have h2' : decodePng (encodePng (ensureRGBA img)) = some (ensureRGBA img) :=
    decode_encode _ (ensureRGBA_valid img hvalid)
  have hcss := create_smaller_sizes_ok _ output_file output_dir _ _ h1' h2'
  simp only [mainRun, h1, Option.isNone_some, Bool.false_eq_true, if_false, hopt, hcss]
  refine ⟨_, _, rfl, ?_, ?_⟩
  · simp [Event.openTarget]
  · refine ⟨encodePng (ensureRGBA img), ensureRGBA img, ?_, h2', ?_⟩
    · rw [getFile_set_ne _ _ _ _ (by decide), getFile_set_ne _ _ _ _ (by decide),
          getFile_set_ne _ _ _ _ (by decide), getFile_set_ne _ _ _ _ (by decide),
          getFile_set_same]
    · intro v hv
      simp only [sizes, List.mem_cons, List.not_mem_nil, or_false] at hv
      rcases hv with rfl | rfl | rfl | rfl
      · rw [getFile_set_ne _ _ _ _ (by decide), getFile_set_ne _ _ _ _ (by decide),
            getFile_set_ne _ _ _ _ (by decide), getFile_set_same]
      · rw [getFile_set_ne _ _ _ _ (by decide), getFile_set_ne _ _ _ _ (by decide),
            getFile_set_same]
      · rw [getFile_set_ne _ _ _ _ (by decide), getFile_set_same]
      · rw [getFile_set_same]

theorem variants_resample_from_optimized_output_witness :
    ∃ fs2 tr,
      mainRun [(("public/logo.png" : String), ([0, 1, 1, 10, 20, 30] : Bytes))]
        = (0, fs2, tr) ∧
      tr.filterMap Event.openTarget = [input_file, output_file] ∧
      ∃ ob imgOpt,
        getFile fs2 output_file = some ob ∧
        decodePng ob = some imgOpt ∧
        ∀ v ∈ sizes,
          getFile fs2 (pathJoin output_dir v.2.2)
            = some (encodePng (resizeImg imgOpt v.1 v.2.1)) :=
  variants_resample_from_optimized_output _ _
    ⟨Mode.RGB, 1, 1, [Pixel.rgb 10 20 30]⟩ rfl rfl

end OptimizeLogo
